import Mathlib

/-!
Shallow embedding of the OpenEcs entity-component-system core.

The repository ships only its test suite (`src/test/ecs.cpp`) and a
demonstration driver (`src/examples/example.cpp`); the engine header
`ecs.h` itself is not under `src/`.  The engine state and operations
below are therefore modelled from the specification (each such
definition says so in its doc comment), while the concrete scenarios
proved about them are transcribed from the test suite and the example
driver, which are authoritative source code of the repository.

Component types are identified by their registry bit (a `Nat`);
component values live in an arbitrary type `α` (instantiated with
`CompVal` for the concrete scenarios).  Machine integers of the C++
code are modelled as `Nat` / `Int`; none of the observed scenarios
approaches an overflow boundary.
-/

namespace OpenEcs

/-- Modelled from the spec: the compile-time block-size constant
`ECS_CACHE_LINE_SIZE` controlling shape-block alignment (observed
value 64). -/
def cacheLineSize : Nat := 64

/-- Modelled from the spec: `EntityId` is a pair of index and
generation uniquely identifying a logical entity. -/
structure EntityId where
  index : Nat
  gen : Nat
deriving DecidableEq, Repr

/-- Modelled from the spec: the error taxonomy of §7, raised
synchronously at the offending call. -/
inductive EcsError where
  | missingComponent
  | duplicateComponent
  | invalidHandle
  | doubleDestroy
deriving DecidableEq, Repr

/-- Modelled from the spec: the `EntityManager` state — the entity
table (generation and aliveness per index), per-type component pools
(here one association list from component bit to value per index; the
family bitmask is exactly the key set, reflecting the invariant that a
bit is set iff the pool holds a live value), and the block table that
records which shape signature owns each chunk of `cacheLineSize`
indices. -/
structure EM (α : Type) where
  blockOwners : List Nat
  genOf : Nat → Nat
  aliveAt : Nat → Bool
  compsAt : Nat → List (Nat × α)

namespace EM

variable {α : Type}

/-- Modelled from the spec: a freshly constructed `EntityManager`, no
entities, no blocks, all generations 0. -/
def empty : EM α :=
  { blockOwners := []
    genOf := fun _ => 0
    aliveAt := fun _ => false
    compsAt := fun _ => [] }

/-- One past the largest index covered by the allocated blocks. -/
def maxIndex (em : EM α) : Nat := em.blockOwners.length * cacheLineSize

/-- The blocks owned by shape signature `m`, in ascending order. -/
def ownedBlocks (em : EM α) (m : Nat) : List Nat :=
  (em.blockOwners.enum.filter (fun p => p.2 == m)).map Prod.fst

/-- The currently free slots of the region of shape signature `m`, in
ascending index order. -/
def freeSlots (em : EM α) (m : Nat) : List Nat :=
  ((em.ownedBlocks m).flatMap
      (fun b => (List.range cacheLineSize).map (fun o => b * cacheLineSize + o))).filter
    (fun i => !(em.aliveAt i))

/-- Modelled from the spec: allocate an index for shape signature `m`:
the lowest free index of the blocks already owned by `m`, or the first
index of a freshly reserved block when the region is full. -/
def allocIndex (em : EM α) (m : Nat) : Nat × EM α :=
  match em.freeSlots m with
  | i :: _ => (i, em)
  | [] =>
    let b := em.blockOwners.length
    (b * cacheLineSize, { em with blockOwners := em.blockOwners ++ [m] })

/-- The registry bitmask of a list of component bits. -/
def maskOfKeys (keys : List Nat) : Nat :=
  keys.foldl (fun m b => m ||| (1 <<< b)) 0

/-- Modelled from the spec: allocate an entity for the shape signature
of the supplied component list and install exactly those components;
with `cs = []` this is the plain `create()` path (shape signature 0,
the untyped region).  The new handle carries the generation currently
recorded for the index. -/
def createWith (em : EM α) (cs : List (Nat × α)) : EntityId × EM α :=
  let m := maskOfKeys (cs.map Prod.fst)
  let i := (em.allocIndex m).1
  let em1 := (em.allocIndex m).2
  (⟨i, em1.genOf i⟩,
    { em1 with
      aliveAt := fun j => if j = i then true else em1.aliveAt j
      compsAt := fun j => if j = i then cs else em1.compsAt j })

/-- Modelled from the spec: plain `create()` — lowest free index of the
untyped region, no components. -/
def create (em : EM α) : EntityId × EM α := em.createWith []

/-- Modelled from the spec: `is_valid()` holds iff the table at the
handle's index currently records the handle's generation. -/
def isValid (em : EM α) (e : EntityId) : Bool :=
  em.genOf e.index == e.gen

/-- The stored value of component bit `b` on index `i`, if present. -/
def getCompAt (em : EM α) (i : Nat) (b : Nat) : Option α :=
  ((em.compsAt i).find? (fun p => p.1 == b)).map Prod.snd

/-- Whether component bit `b` is present on index `i`. -/
def hasCompAt (em : EM α) (i : Nat) (b : Nat) : Bool :=
  ((em.compsAt i).find? (fun p => p.1 == b)).isSome

/-- Modelled from the spec: `get<T>()` — signals MissingComponent when
the component is absent, InvalidHandle on a stale handle. -/
def getComp (em : EM α) (e : EntityId) (b : Nat) : Except EcsError α :=
  if ¬ em.isValid e then .error .invalidHandle
  else match em.getCompAt e.index b with
    | some v => .ok v
    | none => .error .missingComponent

/-- Replace the stored value of an existing key in an association
list, keeping order; no effect when the key is absent. -/
def replaceValue (cs : List (Nat × α)) (b : Nat) (v : α) : List (Nat × α) :=
  cs.map (fun p => if p.1 = b then (b, v) else p)

/-- Write a value through into the pool slot `(i, b)` (the effect of
assigning through the reference returned by `get<T>()`). -/
def writeSlot (em : EM α) (i b : Nat) (v : α) : EM α :=
  { em with compsAt := fun j => if j = i then replaceValue (em.compsAt j) b v else em.compsAt j }

/-- Modelled from the spec: `add<T>(x)` — requires a valid handle and
`!has<T>()`; constructs the component and sets the bit, or signals
DuplicateComponent. -/
def add (em : EM α) (e : EntityId) (b : Nat) (v : α) : Except EcsError (EM α) :=
  if ¬ em.isValid e then .error .invalidHandle
  else if em.hasCompAt e.index b then .error .duplicateComponent
  else .ok { em with
    compsAt := fun j => if j = e.index then (b, v) :: em.compsAt j else em.compsAt j }

/-- Modelled from the spec: `set<T>(x)` — upsert; constructs if absent,
otherwise assigns the existing value; never fails due to presence. -/
def set (em : EM α) (e : EntityId) (b : Nat) (v : α) : Except EcsError (EM α) :=
  if ¬ em.isValid e then .error .invalidHandle
  else if em.hasCompAt e.index b then .ok (em.writeSlot e.index b v)
  else .ok { em with
    compsAt := fun j => if j = e.index then (b, v) :: em.compsAt j else em.compsAt j }

/-- Modelled from the spec: `remove<T>()` — requires presence;
destructs the stored value and clears the bit, or signals
MissingComponent. -/
def remove (em : EM α) (e : EntityId) (b : Nat) : Except EcsError (EM α) :=
  if ¬ em.isValid e then .error .invalidHandle
  else if ¬ em.hasCompAt e.index b then .error .missingComponent
  else .ok { em with
    compsAt := fun j => if j = e.index then (em.compsAt j).filter (fun p => !(p.1 == b)) else em.compsAt j }

/-- Destroy the entity at raw index `i`: destruct every attached
component, increment the generation, free the index. -/
def destroyAt (em : EM α) (i : Nat) : EM α :=
  { em with
    genOf := fun j => if j = i then em.genOf j + 1 else em.genOf j
    aliveAt := fun j => if j = i then false else em.aliveAt j
    compsAt := fun j => if j = i then [] else em.compsAt j }

/-- Modelled from the spec: `destroy()` — requires a valid handle;
clears all components, increments the generation, returns the index to
the free list; a second destroy signals DoubleDestroy. -/
def destroy (em : EM α) (e : EntityId) : Except EcsError (EM α) :=
  if ¬ em.isValid e then .error .doubleDestroy
  else .ok (em.destroyAt e.index)

/-- Number of currently live entities. -/
def count (em : EM α) : Nat :=
  ((List.range em.maxIndex).filter (fun i => em.aliveAt i)).length

/-- Modelled from the spec: `with<T1..Tn>().count()` — the number of
live entities whose component set is a superset of the required bits
(each traversal re-scans the table in ascending index order). -/
def withCount (em : EM α) (req : List Nat) : Nat :=
  ((List.range em.maxIndex).filter
      (fun i => em.aliveAt i && req.all (fun b => em.hasCompAt i b))).length

/-- The family bitmask of index `i`: bit `b` set iff component `b` is
attached (the key set of the pool row). -/
def maskAt (em : EM α) (i : Nat) : Nat :=
  maskOfKeys ((em.compsAt i).map Prod.fst)

/-- Modelled from the spec: `is<Alias>()` — bitmask superset test for
the alias's required component bits, no mutation. -/
def isAlias (em : EM α) (e : EntityId) (req : List Nat) : Bool :=
  req.all (fun b => em.hasCompAt e.index b)

/-- Modelled from the spec: `assume<Alias>()` — signals
MissingComponent when `is<Alias>()` is false, otherwise returns the
alias handle for the same entity. -/
def assumeAlias (em : EM α) (e : EntityId) (req : List Nat) :
    Except EcsError EntityId :=
  if em.isAlias e req then .ok e else .error .missingComponent

/-- State after a fallible operation: the new state on success, the
original state when the operation signalled an error (§7: the core
never recovers locally, mutations are all-or-nothing). -/
def stateAfter (em : EM α) (r : Except EcsError (EM α)) : EM α :=
  match r with
  | .ok em1 => em1
  | .error _ => em

/-- A restartable traversal in ascending index order over the live
entities whose component set is a superset of `req`, folding a state
transformer over them; the match predicate is re-checked against the
current state when each index is visited (the lazy-view semantics of
`with(callable)` / `fetch_every(callable)`). -/
def forMatching (em : EM α) (req : List Nat) (body : EM α → Nat → EM α) : EM α :=
  (List.range em.maxIndex).foldl
    (fun s i =>
      if s.aliveAt i && req.all (fun b => s.hasCompAt i b) then body s i else s)
    em

/-- The raw indices of the currently live entities, ascending. -/
def liveIndices (em : EM α) : List Nat :=
  (List.range em.maxIndex).filter (fun i => em.aliveAt i)

end EM

/-- One client-visible mutating operation on the manager, used to
quantify over arbitrary operation sequences. -/
inductive Op (α : Type) where
  | create
  | createWith (cs : List (Nat × α))
  | add (e : EntityId) (b : Nat) (v : α)
  | set (e : EntityId) (b : Nat) (v : α)
  | remove (e : EntityId) (b : Nat)
  | write (i b : Nat) (v : α)
  | destroy (e : EntityId)

/-- Apply one operation, keeping the prior state when it fails. -/
def applyOp {α : Type} (em : EM α) : Op α → EM α
  | .create => em.create.2
  | .createWith cs => (em.createWith cs).2
  | .add e b v => EM.stateAfter em (em.add e b v)
  | .set e b v => EM.stateAfter em (em.set e b v)
  | .remove e b => EM.stateAfter em (em.remove e b)
  | .write i b v => em.writeSlot i b v
  | .destroy e => EM.stateAfter em (em.destroy e)

/-- Apply a sequence of operations in order. -/
def applyOps {α : Type} (em : EM α) (ops : List (Op α)) : EM α :=
  ops.foldl applyOp em

end OpenEcs

namespace OpenEcs

/-! The concrete component universe of the demonstration driver
`src/examples/example.cpp`: `Health : Property<int>`,
`Mana : Property<int>`, `Name : Property<std::string>`. -/

/-- A component value of the example driver: a wrapped integer or a
wrapped string. -/
inductive CompVal where
  | int (n : Int)
  | str (t : String)
deriving DecidableEq, Repr

/-- Registry bit of `Name` (first use order in the driver). -/
def nameBit : Nat := 0

/-- Registry bit of `Health`. -/
def healthBit : Nat := 1

/-- Registry bit of `Mana`. -/
def manaBit : Nat := 2

/-- Registry bit of `Wheels` (the required component of the test
suite's `Car : EntityAlias<Wheels>`). -/
def wheelsBit : Nat := 3

/-- The shape signature of the `Spellcaster` alias:
`EntityAlias<Name, Health, Mana>`. -/
def spellMask : List Nat := [nameBit, healthBit, manaBit]

/-- The wrapped integer stored at `(i, b)` (0 when absent or not an
integer; never exercised on absent slots in the scenarios). -/
def intAt (em : EM CompVal) (i b : Nat) : Int :=
  match em.getCompAt i b with
  | some (.int n) => n
  | _ => 0

/-- `Spellcaster::castSpell` from `src/examples/example.cpp`: when the
caster `a` is not out of mana, decrement its `Mana` and the target
`t`'s `Health` through the pool references. -/
def castSpell (s : EM CompVal) (a t : Nat) : EM CompVal :=
  if intAt s a manaBit ≠ 0 then
    let s1 := s.writeSlot a manaBit (.int (intAt s a manaBit - 1))
    s1.writeSlot t healthBit (.int (intAt s1 t healthBit - 1))
  else s

/-- `CastSpellSystem::update`: every spellcaster casts on every other
spellcaster (nested `fetch_every`). -/
def castSpellSystem (em : EM CompVal) : EM CompVal :=
  em.forMatching spellMask (fun s a =>
    s.forMatching spellMask (fun s2 t => if t = a then s2 else castSpell s2 a t))

/-- `GiveManaSystem::update`: any out-of-mana spellcaster gets its
`Mana` set to 1337. -/
def giveManaSystem (em : EM CompVal) : EM CompVal :=
  em.forMatching spellMask (fun s i =>
    if intAt s i manaBit = 0 then s.writeSlot i manaBit (.int 1337) else s)

/-- `RemoveCorpsesSystem::update`: destroy every entity with
non-positive `Health` (first over all `Health` holders, then over all
spellcasters, as in the source). -/
def removeCorpsesSystem (em : EM CompVal) : EM CompVal :=
  let s1 := em.forMatching [healthBit] (fun s i =>
    if intAt s i healthBit ≤ 0 then s.destroyAt i else s)
  s1.forMatching spellMask (fun s i =>
    if ¬ (intAt s i healthBit > 0) then s.destroyAt i else s)

/-- One `SystemManager.update` tick of the driver: the three systems
in registration order. -/
def gameTick (em : EM CompVal) : EM CompVal :=
  removeCorpsesSystem (giveManaSystem (castSpellSystem em))

/-- The driver's initial state: Alice (Name, Health 8, Mana 12) and
Bob (Name, Health 12, Mana 8) created through the shaped
`create<Spellcaster>` path. -/
def gameInit : EM CompVal :=
  (((EM.empty).createWith
        [(nameBit, .str "Alice"), (healthBit, .int 8), (manaBit, .int 12)]).2.createWith
    [(nameBit, .str "Bob"), (healthBit, .int 12), (manaBit, .int 8)]).2

/-- The driver's main loop `while (entities.count() > 1) systems.update(1)`,
with explicit fuel. -/
def gameLoop : Nat → EM CompVal → EM CompVal
  | 0, s => s
  | n + 1, s => if s.count > 1 then gameLoop n (gameTick s) else s

/-- The state in which the driver's loop has terminated (16 ticks of
fuel are more than enough: the loop exits after 8 ticks). -/
def gameFinal : EM CompVal := gameLoop 16 gameInit

/-- Modelled from the spec: the §8 "stated decrement rule" iterated
tick-by-tick from the initial values — each actor that is not out of
mana decrements its own Mana by 1 and the opponent's Health by 1 per
tick, until only one actor with positive Health remains.  This is the
spec-side prediction the claim compares the driver against; it
contains no mana refill. -/
structure Duel where
  aliceH : Int
  aliceM : Int
  bobH : Int
  bobM : Int
deriving DecidableEq, Repr

/-- One tick of the stated decrement rule (Alice acts, then Bob, in
the driver's iteration order). -/
def duelTick (d : Duel) : Duel :=
  let d1 := if d.aliceM ≠ 0 then { d with aliceM := d.aliceM - 1, bobH := d.bobH - 1 } else d
  if d1.bobM ≠ 0 then { d1 with bobM := d1.bobM - 1, aliceH := d1.aliceH - 1 } else d1

/-- Number of actors with positive Health. -/
def duelAliveCount (d : Duel) : Nat :=
  (if d.aliceH > 0 then 1 else 0) + (if d.bobH > 0 then 1 else 0)

/-- Iterate the stated decrement rule until only one actor with
positive Health remains, with explicit fuel. -/
def duelLoop : Nat → Duel → Duel
  | 0, d => d
  | n + 1, d => if duelAliveCount d > 1 then duelLoop n (duelTick d) else d

/-- The initial values of §8. -/
def duelInit : Duel := ⟨8, 12, 12, 8⟩

/-- The prediction of the stated decrement rule from the initial
values (the loop exits after 8 ticks). -/
def duelFinal : Duel := duelLoop 16 duelInit

end OpenEcs

namespace OpenEcs

/-- Modelled from the spec: an `UnallocatedEntity` — a detached
mapping from component type to constructed value; no entity index
exists yet.  Represented as the staged association list, most
recently staged first. -/
abbrev UEnt (α : Type) : Type := List (Nat × α)

namespace UEnt

variable {α : Type}

/-- Whether component bit `b` is currently staged. -/
def stagedHas (u : UEnt α) (b : Nat) : Bool :=
  (u.find? (fun p => p.1 == b)).isSome

/-- The currently staged value of component bit `b`, if any. -/
def stagedGet (u : UEnt α) (b : Nat) : Option α :=
  (u.find? (fun p => p.1 == b)).map Prod.snd

/-- Modelled from the spec: staged `set<T>` — upsert against the
staged mapping. -/
def set (u : UEnt α) (b : Nat) (v : α) : UEnt α :=
  if u.stagedHas b then EM.replaceValue u b v else (b, v) :: u

/-- Modelled from the spec: staged `add<T>` — DuplicateComponent when
already staged. -/
def add (u : UEnt α) (b : Nat) (v : α) : Except EcsError (UEnt α) :=
  if u.stagedHas b then .error .duplicateComponent else .ok ((b, v) :: u)

/-- Modelled from the spec: staged `remove<T>` — MissingComponent when
not staged. -/
def remove (u : UEnt α) (b : Nat) : Except EcsError (UEnt α) :=
  if ¬ u.stagedHas b then .error .missingComponent
  else .ok (u.filter (fun p => !(p.1 == b)))

/-- Modelled from the spec: conversion to a live Entity — the manager
allocates a new index sized for the staged component signature and
installs every staged component atomically. -/
def realize (em : EM α) (u : UEnt α) : EntityId × EM α :=
  em.createWith u

end UEnt

/-- The number of live entities whose family bitmask has both bit `a`
and bit `b` set (the spec's reading of `with<A,B>().count()` through
the bitmask). -/
def EM.liveSupersetCount {α : Type} (em : EM α) (a b : Nat) : Nat :=
  ((List.range em.maxIndex).filter
      (fun i => em.aliveAt i && (em.maskAt i).testBit a && (em.maskAt i).testBit b)).length

/-! The allocation-placement scenario of `src/test/ecs.cpp` lines
684-697: plain create, `create_with<Health,Mana>()`, plain create,
`create_with<Health>(10)`, `create_with<Health,Mana>(1,10)` (template
arguments default-construct the components whose constructor argument
is absent; `Health()`/`Mana()` wrap value 0 per lines 673-681). -/

/-- Step 1 of the placement scenario: plain `create()` on a fresh
manager. -/
def c1r1 : EntityId × EM CompVal := (EM.empty).create

/-- Step 2: `create_with<Health, Mana>()` (both defaulted to 0). -/
def c1r2 : EntityId × EM CompVal :=
  c1r1.2.createWith [(healthBit, CompVal.int 0), (manaBit, CompVal.int 0)]

/-- Step 3: plain `create()`. -/
def c1r3 : EntityId × EM CompVal := c1r2.2.create

/-- Step 4: `create_with<Health>(10)`. -/
def c1r4 : EntityId × EM CompVal := c1r3.2.createWith [(healthBit, CompVal.int 10)]

/-- Step 5: `create_with<Health, Mana>(1, 10)`. -/
def c1r5 : EntityId × EM CompVal :=
  c1r4.2.createWith [(healthBit, CompVal.int 1), (manaBit, CompVal.int 10)]

/-- A fresh manager with one plainly created, component-less entity
(the `GIVEN("1 Entitiy without components")` fixture of the test
suite). -/
def freshEnt : EntityId × EM CompVal := (EM.empty).create

/-- A fresh manager with one shaped entity carrying `Health` 5. -/
def healthEnt : EntityId × EM CompVal :=
  (EM.empty).createWith [(healthBit, CompVal.int 5)]

end OpenEcs

namespace OpenEcs

namespace EM

variable {α : Type}

theorem testBit_foldOr (t : List Nat) (b : Nat) : ∀ a : Nat,
    ((t.foldl (fun m k => m ||| (1 <<< k)) a).testBit b) = (a.testBit b || t.contains b) := by
  induction t with
  | nil => intro a; simp
  | cons k t ih =>
      intro a
      simp only [List.foldl_cons, ih, Nat.testBit_or, List.contains_cons]
      rw [Nat.one_shiftLeft, Nat.testBit_two_pow]
      cases Decidable.em (k = b) with
      | inl h => subst h; simp
      | inr h =>
          have hb : (b == k) = false := beq_eq_false_iff_ne.mpr (fun hh => h (Eq.symm hh))
          simp [h, hb, Bool.or_assoc]

theorem testBit_maskOfKeys (ks : List Nat) (b : Nat) :
    (maskOfKeys ks).testBit b = ks.contains b := by
  have h := testBit_foldOr ks b 0
  simpa [maskOfKeys] using h

theorem find?_key_isSome (l : List (Nat × α)) (b : Nat) :
    (l.find? (fun p => p.1 == b)).isSome = (l.map Prod.fst).contains b := by
  induction l with
  | nil => rfl
  | cons p t ih =>
      by_cases hp : p.1 = b
      · have h1 : (p.1 == b) = true := beq_iff_eq.mpr hp
        have h2 : (b == p.1) = true := beq_iff_eq.mpr (Eq.symm hp)
        simp [List.find?_cons, h1, h2]
      · have h1 : (p.1 == b) = false := beq_eq_false_iff_ne.mpr hp
        have h2 : (b == p.1) = false := beq_eq_false_iff_ne.mpr (Ne.symm hp)
        simp [List.find?_cons, h1, h2, ih]

theorem testBit_maskAt (em : EM α) (i b : Nat) :
    (em.maskAt i).testBit b = em.hasCompAt i b := by
  rw [maskAt, testBit_maskOfKeys]
  unfold hasCompAt
  rw [find?_key_isSome]

theorem allocIndex_genOf (em : EM α) (m : Nat) :
    ((em.allocIndex m).2).genOf = em.genOf := by
  unfold allocIndex
  cases h : em.freeSlots m <;> simp [h]

theorem createWith_genOf (em : EM α) (cs : List (Nat × α)) :
    ((em.createWith cs).2).genOf = em.genOf := by
  unfold createWith
  simp [allocIndex_genOf]

theorem createWith_isValid (em : EM α) (cs : List (Nat × α)) :
    ((em.createWith cs).2).isValid (em.createWith cs).1 = true := by
  unfold isValid createWith
  simp [allocIndex_genOf]

theorem createWith_compsAt_self (em : EM α) (cs : List (Nat × α)) :
    ((em.createWith cs).2).compsAt (em.createWith cs).1.index = cs := by
  unfold createWith
  simp

theorem createWith_getCompAt (em : EM α) (cs : List (Nat × α)) (b : Nat) :
    ((em.createWith cs).2).getCompAt (em.createWith cs).1.index b
      = (cs.find? (fun p => p.1 == b)).map Prod.snd := by
  unfold getCompAt
  rw [createWith_compsAt_self]

theorem createWith_hasCompAt (em : EM α) (cs : List (Nat × α)) (b : Nat) :
    ((em.createWith cs).2).hasCompAt (em.createWith cs).1.index b
      = (cs.find? (fun p => p.1 == b)).isSome := by
  unfold hasCompAt
  rw [createWith_compsAt_self]

theorem find?_replaceValue_self (l : List (Nat × α)) (b : Nat) (v : α)
    (h : (l.find? (fun p => p.1 == b)).isSome = true) :
    (replaceValue l b v).find? (fun p => p.1 == b) = some (b, v) := by
  induction l with
  | nil => simp [List.find?_nil] at h
  | cons p t ih =>
      by_cases hp : p.1 = b
      · have h1 : (p.1 == b) = true := beq_iff_eq.mpr hp
        simp [replaceValue, List.find?_cons, hp, h1]
      · have h1 : (p.1 == b) = false := beq_eq_false_iff_ne.mpr hp
        rw [List.find?_cons, h1] at h
        have ht := ih h
        simp only [replaceValue] at ht ⊢
        rw [List.map_cons, List.find?_cons]
        simp [hp, h1, ht]

theorem find?_replaceValue_ne (l : List (Nat × α)) (b c : Nat) (v : α) (hne : c ≠ b) :
    (replaceValue l b v).find? (fun p => p.1 == c) = l.find? (fun p => p.1 == c) := by
  induction l with
  | nil => rfl
  | cons p t ih =>
      by_cases hp : p.1 = b
      · have h1 : (b == c) = false := beq_eq_false_iff_ne.mpr (Ne.symm hne)
        have h2 : (p.1 == c) = false := beq_eq_false_iff_ne.mpr (by rw [hp]; exact Ne.symm hne)
        simp only [replaceValue] at ih ⊢
        rw [List.map_cons, List.find?_cons, List.find?_cons]
        simp [hp, h1, h2, ih]
      · simp only [replaceValue] at ih ⊢
        rw [List.map_cons, List.find?_cons, List.find?_cons]
        simp [hp, ih]

theorem stateAfter_genOf (em : EM α) (r : Except EcsError (EM α))
    (h : ∀ s, r = .ok s → s.genOf = em.genOf) :
    (EM.stateAfter em r).genOf = em.genOf := by
  cases r with
  | ok s => exact h s rfl
  | error _ => rfl

theorem add_ok_genOf (em : EM α) (e : EntityId) (b : Nat) (v : α) (s : EM α)
    (h : em.add e b v = .ok s) : s.genOf = em.genOf := by
  unfold add at h
  split at h
  · cases h
  · split at h
    · cases h
    · cases h; rfl

theorem set_ok_genOf (em : EM α) (e : EntityId) (b : Nat) (v : α) (s : EM α)
    (h : em.set e b v = .ok s) : s.genOf = em.genOf := by
  unfold set at h
  split at h
  · cases h
  · split at h
    · cases h; rfl
    · cases h; rfl

theorem remove_ok_genOf (em : EM α) (e : EntityId) (b : Nat) (s : EM α)
    (h : em.remove e b = .ok s) : s.genOf = em.genOf := by
  unfold remove at h
  split at h
  · cases h
  · split at h
    · cases h
    · cases h; rfl

end EM

theorem genOf_le_applyOp {α : Type} (em : EM α) (op : Op α) (i : Nat) :
    em.genOf i ≤ (applyOp em op).genOf i := by
  cases op with
  | create =>
      have h := EM.createWith_genOf em ([] : List (Nat × α))
      simp only [applyOp, EM.create, h]
      exact Nat.le_refl _
  | createWith cs =>
      have h := EM.createWith_genOf em cs
      simp only [applyOp, h]
      exact Nat.le_refl _
  | add e b v =>
      have h := EM.stateAfter_genOf em (em.add e b v) (EM.add_ok_genOf em e b v)
      simp only [applyOp, h]
      exact Nat.le_refl _
  | set e b v =>
      have h := EM.stateAfter_genOf em (em.set e b v) (EM.set_ok_genOf em e b v)
      simp only [applyOp, h]
      exact Nat.le_refl _
  | remove e b =>
      have h := EM.stateAfter_genOf em (em.remove e b) (EM.remove_ok_genOf em e b)
      simp only [applyOp, h]
      exact Nat.le_refl _
  | write j b v => exact Nat.le_refl _
  | destroy e =>
      simp only [applyOp, EM.destroy]
      split
      · exact Nat.le_refl _
      · simp only [EM.stateAfter, EM.destroyAt]
        by_cases hij : i = e.index
        · simp [hij]
        · simp [hij]

theorem genOf_le_applyOps {α : Type} (em : EM α) (ops : List (Op α)) (i : Nat) :
    em.genOf i ≤ (applyOps em ops).genOf i := by
  induction ops generalizing em with
  | nil => exact Nat.le_refl _
  | cons op t ih =>
      exact Nat.le_trans (genOf_le_applyOp em op i) (ih (applyOp em op))

theorem create_head_free {α : Type} (em : EM α) (i : Nat)
    (h : (em.freeSlots 0).head? = some i) :
    em.create.1 = ⟨i, em.genOf i⟩ ∧ em.create.2.genOf = em.genOf := by
  cases hl : em.freeSlots 0 with
  | nil => rw [hl] at h; cases h
  | cons x t =>
      rw [hl] at h
      have hx : x = i := by
        simpa using h
      subst hx
      unfold EM.create EM.createWith EM.allocIndex EM.maskOfKeys
      simp only [List.map_nil, List.foldl_nil]
      rw [hl]
      exact ⟨rfl, rfl⟩

end OpenEcs

namespace OpenEcs

set_option maxRecDepth 10000 in
/-- Evaluation of the driver's terminated state: Bob (raw index 1) is
the sole survivor with Health 4 and Mana 1337. -/
theorem gameFinal_eval :
    gameFinal.liveIndices = [1]
    ∧ gameFinal.getCompAt 1 nameBit = some (CompVal.str "Bob")
    ∧ intAt gameFinal 1 healthBit = 4
    ∧ intAt gameFinal 1 manaBit = 1337 := by decide

/-- Evaluation of the spec-side decrement-rule prediction: the loop
exits after 8 ticks with Alice at Health 0 / Mana 4 and Bob at
Health 4 / Mana 0. -/
theorem duelFinal_eval : duelFinal = ⟨0, 4, 4, 0⟩ := by decide

/-- C1 (counterexample): the claim says `create_with<T1..Tn>` draws
its index from the same lowest-free-index untyped region as plain
`create()`.  It does not: after one plain create on a fresh manager,
`create_with<Health,Mana>()` returns index 64 (the first index of the
block reserved for the shape signature `{Health, Mana}`), while the
plain allocation path from the very same state returns index 1
(`src/test/ecs.cpp` lines 684-697 assert exactly this placement). -/
theorem c1_counterexample :
    c1r2.1.index = cacheLineSize
    ∧ c1r1.2.create.1.index = 1
    ∧ ¬ (c1r2.1.index = c1r1.2.create.1.index) := by decide

/-- C1 (amended): `create_with<T1..Tn>(args...)` allocates through the
shape-signature block path, exactly as `create<Alias>` does — in the
scenario of `src/test/ecs.cpp` lines 684-697 the five creations land
at indices 0, 64, 1, 128, 65 — and constructs exactly the named
component types from the supplied arguments, default-constructing the
absent ones (values 0 for defaulted `Health`/`Mana`); in general the
created entity carries precisely the supplied component list. -/
theorem c1_create_with_shape_blocked :
    (c1r1.1.index = 0
      ∧ c1r2.1.index = cacheLineSize
      ∧ c1r3.1.index = 1
      ∧ c1r4.1.index = 2 * cacheLineSize
      ∧ c1r5.1.index = cacheLineSize + 1
      ∧ c1r2.2.getCompAt c1r2.1.index healthBit = some (CompVal.int 0)
      ∧ c1r2.2.getCompAt c1r2.1.index manaBit = some (CompVal.int 0)
      ∧ c1r2.2.hasCompAt c1r2.1.index wheelsBit = false
      ∧ c1r4.2.getCompAt c1r4.1.index healthBit = some (CompVal.int 10)
      ∧ c1r4.2.hasCompAt c1r4.1.index manaBit = false
      ∧ c1r5.2.getCompAt c1r5.1.index healthBit = some (CompVal.int 1)
      ∧ c1r5.2.getCompAt c1r5.1.index manaBit = some (CompVal.int 10))
    ∧ (∀ (em : EM CompVal) (cs : List (Nat × CompVal)) (b : Nat),
        ((em.createWith cs).2).getCompAt (em.createWith cs).1.index b
          = (cs.find? (fun p => p.1 == b)).map Prod.snd) :=
  ⟨by decide, fun em cs b => EM.createWith_getCompAt em cs b⟩

/-- C2: with block size 64, starting from an empty `EntityManager`,
the sequence plain `create()`, shaped `create<Car>()` (shape signature
`{Wheels}`), plain `create()`, shaped `create<Car>()` yields indices
0, 64, 1, 65: the shaped creations land in the 64-aligned block
reserved for the shape signature, distinct from the untyped region,
while the interleaved plain creations continue the untyped region
contiguously (`src/test/ecs.cpp` lines 699-708). -/
theorem c2_shape_block_indices :
    (EM.empty (α := CompVal)).create.1.index = 0
    ∧ ((EM.empty (α := CompVal)).create.2.createWith
        [(wheelsBit, CompVal.int 0)]).1.index = cacheLineSize
    ∧ ((EM.empty (α := CompVal)).create.2.createWith
        [(wheelsBit, CompVal.int 0)]).2.create.1.index = 1
    ∧ (((EM.empty (α := CompVal)).create.2.createWith
        [(wheelsBit, CompVal.int 0)]).2.create.2.createWith
          [(wheelsBit, CompVal.int 0)]).1.index = cacheLineSize + 1 := by decide

/-- C4 (counterexample): in the driver scenario the sole survivor is
Bob (raw index 1), and his final Mana is 1337 — the value installed by
`GiveManaSystem` when he ran out of mana on the final tick — while
iterating the stated decrement rule tick-by-tick from the initial
values predicts final Mana 0 for him; so the survivor's final
Health and Mana do not both equal the decrement-rule prediction. -/
theorem c4_counterexample :
    gameFinal.liveIndices = [1]
    ∧ intAt gameFinal 1 manaBit = 1337
    ∧ duelFinal.bobM = 0
    ∧ ¬ (intAt gameFinal 1 healthBit = duelFinal.bobH
          ∧ intAt gameFinal 1 manaBit = duelFinal.bobM) := by
  obtain ⟨h1, _, h3, h4⟩ := gameFinal_eval
  refine ⟨h1, h4, ?_, ?_⟩
  · rw [duelFinal_eval]
  · intro hc
    rw [h4, duelFinal_eval] at hc
    exact absurd hc.2 (by decide)

/-- C4 (amended): in the driver scenario the sole survivor is Bob, and
his final Health (4) equals the value predicted by iterating the
stated decrement rule tick-by-tick from the initial values; his final
Mana however is 1337, the refill installed by `GiveManaSystem` when he
went out of mana on the final tick, not the decrement-rule value 0. -/
theorem c4_survivor_values :
    gameFinal.liveIndices = [1]
    ∧ gameFinal.getCompAt 1 nameBit = some (CompVal.str "Bob")
    ∧ duelFinal = ⟨0, 4, 4, 0⟩
    ∧ intAt gameFinal 1 healthBit = duelFinal.bobH
    ∧ intAt gameFinal 1 manaBit = 1337 := by
  obtain ⟨h1, h2, h3, h4⟩ := gameFinal_eval
  refine ⟨h1, h2, duelFinal_eval, ?_, h4⟩
  rw [h3, duelFinal_eval]

end OpenEcs

namespace OpenEcs

/-- C6: converting an `UnallocatedEntity` to a live Entity produces a
valid entity that holds exactly the currently staged component set
with exactly the staged values — every staged component is present
with its staged value, every component absent from the staged mapping
(in particular one removed before conversion) is absent on the
entity, with no partially-installed state observable. -/
theorem c6_realize_installs_staged {α : Type} (em : EM α) (u : UEnt α) :
    ((UEnt.realize em u).2).isValid (UEnt.realize em u).1 = true
    ∧ (∀ b, ((UEnt.realize em u).2).getCompAt (UEnt.realize em u).1.index b
        = u.stagedGet b)
    ∧ (∀ b, ((UEnt.realize em u).2).hasCompAt (UEnt.realize em u).1.index b
        = u.stagedHas b) := by
  refine ⟨EM.createWith_isValid em u, fun b => ?_, fun b => ?_⟩
  · exact EM.createWith_getCompAt em u b
  · exact EM.createWith_hasCompAt em u b

/-- C8: for every pair of component bits and every manager state,
`with<A,B>().count()` equals `with<B,A>().count()`, and both equal the
number of currently live entities whose family bitmask is a superset
of the bits for A and B. -/
theorem c8_with_count_comm {α : Type} (em : EM α) (a b : Nat) :
    em.withCount [a, b] = em.withCount [b, a]
    ∧ em.withCount [a, b] = em.liveSupersetCount a b := by
  constructor
  · unfold EM.withCount
    congr 1
    apply List.filter_congr
    intro i _
    cases em.aliveAt i <;> cases h1 : em.hasCompAt i a <;> cases h2 : em.hasCompAt i b <;>
      simp [h1, h2]
  · unfold EM.withCount EM.liveSupersetCount
    congr 1
    apply List.filter_congr
    intro i _
    rw [EM.testBit_maskAt, EM.testBit_maskAt]
    cases em.aliveAt i <;> cases h1 : em.hasCompAt i a <;> cases h2 : em.hasCompAt i b <;>
      simp [h1, h2]

/-- C9: for every live entity and alias requirement set,
`assume<Alias>()` signals MissingComponent exactly when `is<Alias>()`
is false, returns the alias handle for the same entity otherwise, and
`is<Alias>()` is the bitmask superset test for the alias's required
bits; both are pure observers. -/
theorem c9_assume_alias {α : Type} (em : EM α) (e : EntityId) (req : List Nat)
    (hv : em.isValid e = true) :
    (em.assumeAlias e req = .error .missingComponent ↔ em.isAlias e req = false)
    ∧ (em.isAlias e req = true → em.assumeAlias e req = .ok e)
    ∧ em.isAlias e req = req.all (fun b => (em.maskAt e.index).testBit b) := by
  refine ⟨?_, ?_, ?_⟩
  · unfold EM.assumeAlias
    cases h : em.isAlias e req <;> simp [h]
  · intro h
    unfold EM.assumeAlias
    simp [h]
  · unfold EM.isAlias
    simp [EM.testBit_maskAt]

/-- Witness for C9 at the entity of `src/test/ecs.cpp` line 540
(`entity.assume<Wheels>()` on an entity with `Wheels` attached). -/
theorem c9_assume_alias_witness :
    (((EM.empty (α := CompVal)).createWith [(wheelsBit, CompVal.int 4)]).2.isValid
        ((EM.empty (α := CompVal)).createWith [(wheelsBit, CompVal.int 4)]).1 = true)
    ∧ ((((EM.empty (α := CompVal)).createWith [(wheelsBit, CompVal.int 4)]).2.assumeAlias
          ((EM.empty (α := CompVal)).createWith [(wheelsBit, CompVal.int 4)]).1 [wheelsBit]
            = .error .missingComponent
        ↔ ((EM.empty (α := CompVal)).createWith [(wheelsBit, CompVal.int 4)]).2.isAlias
          ((EM.empty (α := CompVal)).createWith [(wheelsBit, CompVal.int 4)]).1 [wheelsBit]
            = false)
      ∧ (((EM.empty (α := CompVal)).createWith [(wheelsBit, CompVal.int 4)]).2.isAlias
          ((EM.empty (α := CompVal)).createWith [(wheelsBit, CompVal.int 4)]).1 [wheelsBit]
            = true
          → ((EM.empty (α := CompVal)).createWith [(wheelsBit, CompVal.int 4)]).2.assumeAlias
            ((EM.empty (α := CompVal)).createWith [(wheelsBit, CompVal.int 4)]).1 [wheelsBit]
              = .ok ((EM.empty (α := CompVal)).createWith [(wheelsBit, CompVal.int 4)]).1)
      ∧ ((EM.empty (α := CompVal)).createWith [(wheelsBit, CompVal.int 4)]).2.isAlias
          ((EM.empty (α := CompVal)).createWith [(wheelsBit, CompVal.int 4)]).1 [wheelsBit]
        = [wheelsBit].all (fun b =>
            (((EM.empty (α := CompVal)).createWith [(wheelsBit, CompVal.int 4)]).2.maskAt
              ((EM.empty (α := CompVal)).createWith [(wheelsBit, CompVal.int 4)]).1.index).testBit b)) :=
  ⟨by decide, c9_assume_alias _ _ _ (by decide)⟩

end OpenEcs


namespace OpenEcs

/-- C5: on a live entity not yet holding component `b`, `add x` then
`add y` fails with DuplicateComponent and leaves the first value `x`
in place, whereas `set x` then `set y` never fails due to presence
and leaves the stored component equal to `y`. -/
theorem c5_add_dup_set_upsert {α : Type} (em : EM α) (e : EntityId) (b : Nat) (x y : α)
    (hv : em.isValid e = true) (hnp : em.hasCompAt e.index b = false) :
    (∃ em1, em.add e b x = .ok em1
      ∧ em1.add e b y = .error .duplicateComponent
      ∧ (EM.stateAfter em1 (em1.add e b y)).getCompAt e.index b = some x)
    ∧ (∃ em2 em3, em.set e b x = .ok em2 ∧ em2.set e b y = .ok em3
      ∧ em3.getCompAt e.index b = some y) := by
  have hbb : (b == b) = true := beq_iff_eq.mpr rfl
  have hgen : em.genOf e.index = e.gen := beq_iff_eq.mp hv
  have herr : ({ em with compsAt := fun j =>
        if j = e.index then (b, x) :: em.compsAt j else em.compsAt j } : EM α).add e b y
      = .error .duplicateComponent := by
    unfold EM.add
    simp only [EM.isValid, EM.hasCompAt]
    simp [List.find?_cons, hbb]
    exact hgen
  have hok : em.add e b x = .ok { em with compsAt := fun j =>
      if j = e.index then (b, x) :: em.compsAt j else em.compsAt j } := by
    unfold EM.add
    simp [hv, hnp]
  have hlast : (EM.stateAfter
      ({ em with compsAt := fun j =>
        if j = e.index then (b, x) :: em.compsAt j else em.compsAt j } : EM α)
      (({ em with compsAt := fun j =>
        if j = e.index then (b, x) :: em.compsAt j else em.compsAt j } : EM α).add e b y)).getCompAt
        e.index b = some x := by
    rw [herr]
    unfold EM.stateAfter EM.getCompAt
    simp [List.find?_cons, hbb]
  have hok2 : em.set e b x = .ok { em with compsAt := fun j =>
      if j = e.index then (b, x) :: em.compsAt j else em.compsAt j } := by
    unfold EM.set
    simp [hv, hnp]
  have hok3 : ({ em with compsAt := fun j =>
        if j = e.index then (b, x) :: em.compsAt j else em.compsAt j } : EM α).set e b y
      = .ok (({ em with compsAt := fun j =>
        if j = e.index then (b, x) :: em.compsAt j else em.compsAt j } : EM α).writeSlot
          e.index b y) := by
    unfold EM.set
    simp only [EM.isValid, EM.hasCompAt]
    simp [List.find?_cons, hbb]
    exact hgen
  have hval : (({ em with compsAt := fun j =>
        if j = e.index then (b, x) :: em.compsAt j else em.compsAt j } : EM α).writeSlot
          e.index b y).getCompAt e.index b = some y := by
    unfold EM.writeSlot EM.getCompAt EM.replaceValue
    simp [List.find?_cons, hbb]
  exact ⟨⟨_, hok, herr, hlast⟩, ⟨_, _, hok2, hok3, hval⟩⟩

/-- Witness for C5 at the scenario of `src/test/ecs.cpp` lines
211-222: a fresh entity, `Health` added twice, then set twice. -/
theorem c5_add_dup_set_upsert_witness :
    (freshEnt.2.isValid freshEnt.1 = true)
    ∧ (freshEnt.2.hasCompAt freshEnt.1.index healthBit = false)
    ∧ ((∃ em1, freshEnt.2.add freshEnt.1 healthBit (CompVal.int 1) = .ok em1
        ∧ em1.add freshEnt.1 healthBit (CompVal.int 2) = .error .duplicateComponent
        ∧ (EM.stateAfter em1 (em1.add freshEnt.1 healthBit (CompVal.int 2))).getCompAt
            freshEnt.1.index healthBit = some (CompVal.int 1))
      ∧ (∃ em2 em3, freshEnt.2.set freshEnt.1 healthBit (CompVal.int 1) = .ok em2
          ∧ em2.set freshEnt.1 healthBit (CompVal.int 2) = .ok em3
          ∧ em3.getCompAt freshEnt.1.index healthBit = some (CompVal.int 2))) :=
  ⟨by decide, by decide,
    c5_add_dup_set_upsert freshEnt.2 freshEnt.1 healthBit (CompVal.int 1) (CompVal.int 2)
      (by decide) (by decide)⟩

/-- C7: on a live entity holding component `b` with value `x`,
assigning `v` through the reference returned by `get` is visible on a
subsequent `get` (and touches no other pool slot of this or any other
entity), while copying the value out leaves the manager untouched, so
the stored component still reads `x` no matter what is done to the
copy. -/
theorem c7_ref_mutation {α : Type} (em : EM α) (e : EntityId) (b : Nat) (x v : α)
    (hv : em.isValid e = true) (hx : em.getComp e b = .ok x) :
    (em.writeSlot e.index b v).getComp e b = .ok v
    ∧ (∀ c, c ≠ b → (em.writeSlot e.index b v).getCompAt e.index c = em.getCompAt e.index c)
    ∧ (∀ j, j ≠ e.index → (em.writeSlot e.index b v).compsAt j = em.compsAt j)
    ∧ em.getComp e b = .ok x := by
  have hsx : em.getCompAt e.index b = some x := by
    unfold EM.getComp at hx
    rw [hv] at hx
    simp at hx
    cases hm : em.getCompAt e.index b with
    | none => rw [hm] at hx; cases hx
    | some w => rw [hm] at hx; simp at hx; rw [hx]
  have hpresent : ((em.compsAt e.index).find? (fun p => p.1 == b)).isSome = true := by
    unfold EM.getCompAt at hsx
    cases hf : (em.compsAt e.index).find? (fun p => p.1 == b) with
    | none => rw [hf] at hsx; cases hsx
    | some p => simp [hf]
  refine ⟨?_, fun c hc => ?_, fun j hj => ?_, hx⟩
  · unfold EM.getComp EM.writeSlot EM.getCompAt
    simp only [EM.isValid]
    simp [EM.find?_replaceValue_self _ b v hpresent, beq_iff_eq.mp hv]
  · unfold EM.writeSlot EM.getCompAt
    simp [EM.find?_replaceValue_ne _ b c v hc]
  · unfold EM.writeSlot
    simp [hj]

/-- Witness for C7 at the scenario of `src/test/ecs.cpp` lines
196-209: `Health` 5, written to 123 through the reference. -/
theorem c7_ref_mutation_witness :
    (healthEnt.2.isValid healthEnt.1 = true)
    ∧ (healthEnt.2.getComp healthEnt.1 healthBit = .ok (CompVal.int 5))
    ∧ ((healthEnt.2.writeSlot healthEnt.1.index healthBit (CompVal.int 123)).getComp
          healthEnt.1 healthBit = .ok (CompVal.int 123)
      ∧ (∀ c, c ≠ healthBit →
          (healthEnt.2.writeSlot healthEnt.1.index healthBit (CompVal.int 123)).getCompAt
              healthEnt.1.index c
            = healthEnt.2.getCompAt healthEnt.1.index c)
      ∧ (∀ j, j ≠ healthEnt.1.index →
          (healthEnt.2.writeSlot healthEnt.1.index healthBit (CompVal.int 123)).compsAt j
            = healthEnt.2.compsAt j)
      ∧ healthEnt.2.getComp healthEnt.1 healthBit = .ok (CompVal.int 5)) :=
  ⟨by decide, rfl,
    c7_ref_mutation healthEnt.2 healthEnt.1 healthBit (CompVal.int 5) (CompVal.int 123)
      (by decide) rfl⟩

/-- C10: on a live entity, `add`, `set` and `remove` (whether they
succeed or fail) leave the table generation at the entity's index and
the handle's validity unchanged; `destroy` is the Entity operation
that invalidates the handle. -/
theorem c10_ops_preserve_validity {α : Type} (em : EM α) (e : EntityId) (b : Nat) (v : α)
    (hv : em.isValid e = true) :
    ((EM.stateAfter em (em.add e b v)).genOf e.index = em.genOf e.index
      ∧ (EM.stateAfter em (em.add e b v)).isValid e = true)
    ∧ ((EM.stateAfter em (em.set e b v)).genOf e.index = em.genOf e.index
      ∧ (EM.stateAfter em (em.set e b v)).isValid e = true)
    ∧ ((EM.stateAfter em (em.remove e b)).genOf e.index = em.genOf e.index
      ∧ (EM.stateAfter em (em.remove e b)).isValid e = true)
    ∧ (EM.stateAfter em (em.destroy e)).isValid e = false := by
  have hadd := EM.stateAfter_genOf em (em.add e b v) (EM.add_ok_genOf em e b v)
  have hset := EM.stateAfter_genOf em (em.set e b v) (EM.set_ok_genOf em e b v)
  have hrem := EM.stateAfter_genOf em (em.remove e b) (EM.remove_ok_genOf em e b)
  have hgen : em.genOf e.index = e.gen := beq_iff_eq.mp hv
  have hd : em.destroy e = .ok (em.destroyAt e.index) := by
    unfold EM.destroy
    simp [hv]
  refine ⟨⟨?_, ?_⟩, ⟨?_, ?_⟩, ⟨?_, ?_⟩, ?_⟩
  · rw [hadd]
  · unfold EM.isValid
    rw [hadd, hgen]
    exact beq_iff_eq.mpr rfl
  · rw [hset]
  · unfold EM.isValid
    rw [hset, hgen]
    exact beq_iff_eq.mpr rfl
  · rw [hrem]
  · unfold EM.isValid
    rw [hrem, hgen]
    exact beq_iff_eq.mpr rfl
  · rw [hd]
    unfold EM.stateAfter EM.destroyAt EM.isValid
    simp [hgen]

/-- Witness for C10 on a fresh entity with a `Health` argument
(`src/test/ecs.cpp` lines 223-238). -/
theorem c10_ops_preserve_validity_witness :
    (freshEnt.2.isValid freshEnt.1 = true)
    ∧ (((EM.stateAfter freshEnt.2 (freshEnt.2.add freshEnt.1 healthBit
            (CompVal.int 5))).genOf freshEnt.1.index = freshEnt.2.genOf freshEnt.1.index
        ∧ (EM.stateAfter freshEnt.2 (freshEnt.2.add freshEnt.1 healthBit
            (CompVal.int 5))).isValid freshEnt.1 = true)
      ∧ ((EM.stateAfter freshEnt.2 (freshEnt.2.set freshEnt.1 healthBit
            (CompVal.int 5))).genOf freshEnt.1.index = freshEnt.2.genOf freshEnt.1.index
        ∧ (EM.stateAfter freshEnt.2 (freshEnt.2.set freshEnt.1 healthBit
            (CompVal.int 5))).isValid freshEnt.1 = true)
      ∧ ((EM.stateAfter freshEnt.2 (freshEnt.2.remove freshEnt.1
            healthBit)).genOf freshEnt.1.index = freshEnt.2.genOf freshEnt.1.index
        ∧ (EM.stateAfter freshEnt.2 (freshEnt.2.remove freshEnt.1
            healthBit)).isValid freshEnt.1 = true)
      ∧ (EM.stateAfter freshEnt.2 (freshEnt.2.destroy freshEnt.1)).isValid freshEnt.1
          = false) :=
  ⟨by decide,
    c10_ops_preserve_validity freshEnt.2 freshEnt.1 healthBit (CompVal.int 5) (by decide)⟩

/-- C3: a freshly created entity is valid on return; destroying a live
entity succeeds and leaves the handle invalid; when the destroyed
index is the lowest free untyped slot (as in the single-entity test
scenario), the next plain create reuses exactly that index with the
strictly greater generation; and no subsequent sequence of operations
ever makes the old handle valid again. -/
theorem c3_destroy_reuse {α : Type} (em : EM α) (e : EntityId)
    (hv : em.isValid e = true) :
    (∀ em0 : EM α, (em0.create.2).isValid em0.create.1 = true)
    ∧ ∃ em1, em.destroy e = .ok em1
      ∧ em1.isValid e = false
      ∧ ((em1.freeSlots 0).head? = some e.index →
          em1.create.1.index = e.index
          ∧ em1.create.1.gen = e.gen + 1
          ∧ e.gen < em1.create.1.gen
          ∧ ∀ ops : List (Op α), (applyOps em1.create.2 ops).isValid e = false) := by
  have hgen : em.genOf e.index = e.gen := beq_iff_eq.mp hv
  have hd : em.destroy e = .ok (em.destroyAt e.index) := by
    unfold EM.destroy
    simp [hv]
  have hgen1 : (em.destroyAt e.index).genOf e.index = e.gen + 1 := by
    unfold EM.destroyAt
    simp [hgen]
  refine ⟨fun em0 => EM.createWith_isValid em0 [], em.destroyAt e.index, hd, ?_, ?_⟩
  · unfold EM.isValid
    rw [hgen1]
    exact beq_eq_false_iff_ne.mpr (Nat.succ_ne_self e.gen)
  · intro hhead
    obtain ⟨h1, h2⟩ := create_head_free (em.destroyAt e.index) e.index hhead
    have hidx : (em.destroyAt e.index).create.1.index = e.index := by rw [h1]
    have hg : (em.destroyAt e.index).create.1.gen = e.gen + 1 := by rw [h1]; exact hgen1
    refine ⟨hidx, hg, ?_, fun ops => ?_⟩
    · rw [hg]
      exact Nat.lt_succ_self e.gen
    · unfold EM.isValid
      apply beq_eq_false_iff_ne.mpr
      intro heq
      have hle := genOf_le_applyOps ((em.destroyAt e.index).create.2) ops e.index
      rw [heq] at hle
      have h2i : ((em.destroyAt e.index).create.2).genOf e.index = e.gen + 1 := by
        rw [congrFun h2 e.index]
        exact hgen1
      rw [h2i] at hle
      exact Nat.not_succ_le_self e.gen hle

/-- Witness for C3 at the scenario of `src/test/ecs.cpp` lines
245-253: one entity, destroyed, replaced by a new create. -/
theorem c3_destroy_reuse_witness :
    (freshEnt.2.isValid freshEnt.1 = true)
    ∧ ((∀ em0 : EM CompVal, (em0.create.2).isValid em0.create.1 = true)
      ∧ ∃ em1, freshEnt.2.destroy freshEnt.1 = .ok em1
        ∧ em1.isValid freshEnt.1 = false
        ∧ ((em1.freeSlots 0).head? = some freshEnt.1.index →
            em1.create.1.index = freshEnt.1.index
            ∧ em1.create.1.gen = freshEnt.1.gen + 1
            ∧ freshEnt.1.gen < em1.create.1.gen
            ∧ ∀ ops : List (Op CompVal),
                (applyOps em1.create.2 ops).isValid freshEnt.1 = false)) :=
  ⟨by decide, c3_destroy_reuse freshEnt.2 freshEnt.1 (by decide)⟩

end OpenEcs
